import Mathlib

/-!
A shallow embedding of the run-identity and filesystem-bootstrap core of
fast-coref (file src/auto_memory_model/main.py): the changed-option map, the
derived run name, dataset path resolution, run-directory bootstrapping, and
the persisted config record.  Each definition is translated directly from the
Python source; filesystem effects are made explicit by threading an FS state.
-/

namespace Coref

/-- Scalar values held by the parsed-argument namespace.  Python floats are
represented by their repr string (repr is injective on floats and str of a
float returns it), so float equality and rendering become string equality and
identity; each command-line option carries the type argparse gives it, so
cross-type numeric coercions of Python equality never arise. -/
inductive Value where
  | vInt : Int → Value
  | vStr : String → Value
  | vBool : Bool → Value
  | vNone : Value
  | vFloat : String → Value
deriving DecidableEq

/-- Python rendering str(v) of a scalar value. -/
def Value.render : Value → String
  | .vInt n => toString n
  | .vStr s => s
  | .vBool true => "True"
  | .vBool false => "False"
  | .vNone => "None"
  | .vFloat f => f

/-- An insertion-ordered string-keyed mapping, as a Python dict or
collections.OrderedDict (keys unique in every mapping the script builds). -/
abbrev Dict := List (String × Value)

/-- Mapping access d[k] as an option: the first binding of key k. -/
def lookup (d : Dict) (k : String) : Option Value :=
  (d.find? (fun kv => kv.1 == k)).map (fun kv => kv.2)

/-- Mapping access d[k]; total stand-in, used only where the key is present. -/
def getv (d : Dict) (k : String) : Value :=
  (lookup d k).getD Value.vNone

/-- The key list of a mapping. -/
def keys (d : Dict) : List String := d.map Prod.fst

/-- Replace the value stored at key k, keeping the key order (used to build
concrete configurations from the default table). -/
def setv (d : Dict) (k : String) (v : Value) : Dict :=
  d.map (fun kv => if kv.1 == k then (kv.1, v) else kv)

/-- Python str.rstrip with a single character: drop trailing occurrences. -/
def dropTrailing (c : Char) (l : List Char) : List Char :=
  (l.reverse.dropWhile (fun a => a == c)).reverse

/-- posixpath.join restricted to two components, on character lists. -/
def pathJoinL (a b : List Char) : List Char :=
  if b.head? = some '/' then b
  else if a = [] ∨ a.getLast? = some '/' then a ++ b
  else a ++ '/' :: b

/-- os.path.join of two path strings. -/
def pathJoin (a b : String) : String := (pathJoinL a.data b.data).asString

/-- posixpath.dirname on character lists: the part up to the last slash, with
trailing slashes stripped unless the head is empty or all slashes. -/
def dirnameL (l : List Char) : List Char :=
  let head := (l.reverse.dropWhile (fun a => a != '/')).reverse
  if head ≠ [] ∧ head.any (fun a => a != '/') then dropTrailing '/' head else head

/-- os.path.dirname of a path string. -/
def dirname (p : String) : String := (dirnameL p.data).asString

/-- posixpath.basename on character lists: the part after the last slash. -/
def basenameL (l : List Char) : List Char :=
  (l.reverse.takeWhile (fun a => a != '/')).reverse

/-- os.path.basename of a path string. -/
def basename (p : String) : String := (basenameL p.data).asString

/-- Python p.rstrip with the slash character, on path strings. -/
def rstripSlash (p : String) : String := (dropTrailing '/' p.data).asString

/-- The filesystem as visible to the script: a set of existing directories and
a set of files with contents. -/
structure FS where
  dirs : List String
  files : List (String × String)
deriving DecidableEq

/-- The empty filesystem. -/
def fsEmpty : FS := ⟨[], []⟩

/-- os.path.exists: true for directories and files alike. -/
def fsExists (fs : FS) (p : String) : Bool :=
  fs.dirs.contains p || fs.files.any (fun e => e.1 == p)

/-- Opening a file in mode w and writing content: truncate and replace. -/
def writeFile (fs : FS) (p content : String) : FS :=
  { fs with files := (p, content) :: fs.files.filter (fun e => e.1 != p) }

/-- The content of a file, if present. -/
def readFile (fs : FS) (p : String) : Option String :=
  (fs.files.find? (fun e => e.1 == p)).map (fun e => e.2)

/-- The head of os.path.split as os.makedirs uses it, rewinding once over a
trailing slash. -/
def mkdirsHead (p : String) : String :=
  if basename p = "" then dirname (dirname p) else dirname p

/-- The tail of os.path.split as os.makedirs uses it. -/
def mkdirsTail (p : String) : String :=
  if basename p = "" then basename (dirname p) else basename p

/-- The final mkdir step of os.makedirs with its FileExistsError handling
folded in by the caller: create the directory when it is missing. -/
def mkdirsFinish (p : String) (fs : FS) : FS :=
  if fsExists fs p then fs else { fs with dirs := p :: fs.dirs }

/-- The recursive parent-creating walk of os.makedirs: recurse on a missing
nonempty head (errors on existing parents are swallowed there), then create
the target unless it already exists.  The fuel bounds the recursion depth;
the head is strictly shorter than the path, so any fuel of at least the path
length is enough. -/
def mkdirsChain : Nat → FS → String → FS
  | 0, fs, _ => fs
  | fuel + 1, fs, p =>
    mkdirsFinish p
      (if mkdirsHead p ≠ "" ∧ mkdirsTail p ≠ "" ∧ fsExists fs (mkdirsHead p) = false
       then mkdirsChain fuel fs (mkdirsHead p) else fs)

/-- os.makedirs(p) without exist_ok: FileExistsError when the target already
exists, otherwise create it together with any missing parents. -/
def makedirs (fs : FS) (p : String) : Except String FS :=
  if fsExists fs p then .error "FileExistsError"
  else .ok (mkdirsChain (p.length + 1) fs p)

/-- The default table of the argument parser, one entry per add_argument call
in source order (the order of vars(args)). -/
def defaults : Dict :=
  [("base_data_dir", .vStr "../data/"),
   ("data_dir", .vNone),
   ("singleton_file", .vNone),
   ("base_model_dir", .vStr "../models"),
   ("model_dir", .vNone),
   ("dataset", .vStr "ontonotes"),
   ("conll_scorer", .vStr "../resources/lrec2020-coref/reference-coreference-scorers/scorer.pl"),
   ("model_size", .vStr "large"),
   ("max_segment_len", .vInt 2048),
   ("max_span_width", .vInt 20),
   ("ment_emb", .vStr "attn"),
   ("use_gold_ments", .vBool false),
   ("top_span_ratio", .vFloat "0.4"),
   ("mem_type", .vStr "unbounded"),
   ("mlp_size", .vInt 3000),
   ("cluster_mlp_size", .vInt 3000),
   ("mlp_depth", .vInt 1),
   ("entity_rep", .vStr "wt_avg"),
   ("sim_func", .vStr "hadamard"),
   ("emb_size", .vInt 20),
   ("max_ents", .vInt 20),
   ("eval_max_ents", .vNone),
   ("doc_class", .vNone),
   ("cross_val_split", .vInt 0),
   ("num_train_docs", .vNone),
   ("num_eval_docs", .vNone),
   ("dropout_rate", .vFloat "0.3"),
   ("label_smoothing_wt", .vFloat "0.1"),
   ("ment_loss", .vStr "topk"),
   ("max_epochs", .vInt 25),
   ("seed", .vInt 0),
   ("max_gradient_norm", .vFloat "1.0"),
   ("init_lr", .vFloat "0.0003"),
   ("fine_tune_lr", .vFloat "1e-05"),
   ("eval_per_k_steps", .vInt 0),
   ("update_frequency", .vInt 500),
   ("to_save_model", .vBool true),
   ("eval_model", .vBool false),
   ("slurm_id", .vNone)]

/-- A well-formed parsed-argument mapping: its keys are exactly the parser
attribute names, in any order, with no duplicates (vars(args) is a dict). -/
def WF (args : Dict) : Prop := List.Perm (keys args) (keys defaults)

instance (args : Dict) : Decidable (WF args) :=
  inferInstanceAs (Decidable (List.Perm _ _))

/-- The allow-list imp_opts of identity-relevant option names. -/
def impOpts : List String :=
  ["model_size", "max_segment_len",
   "ment_emb", "max_span_width", "top_span_ratio",
   "mem_type", "entity_rep", "mlp_size",
   "dropout_rate", "seed", "init_lr", "max_epochs",
   "label_smoothing_wt", "ment_loss",
   "num_train_docs", "sim_func", "fine_tune_lr", "doc_class"]

/-- The closed dataset choice list of the -dataset argument. -/
def datasetChoices : List String :=
  ["litbank", "ontonotes", "preco", "quizbowl", "wikicoref"]

/-- The allow-list phase of changed_opts: options from imp_opts whose value
differs from the parser default. -/
def impPart (args : Dict) : Dict :=
  impOpts.filterMap (fun attr =>
    if getv args attr ≠ getv defaults attr then some (attr, getv args attr) else none)

/-- The conditional singleton marker: a supplied singleton-mentions path that
exists on disk is recorded under key singleton with the basename of the path
as its value. -/
def singletonPart (fs : FS) (args : Dict) : Dict :=
  match getv args "singleton_file" with
  | .vStr s => if fsExists fs s then [("singleton", Value.vStr (basename s))] else []
  | _ => []

/-- The conditional cross-validation entry: cross_val_split whenever the
dataset is litbank, taken from the configuration without a default
comparison. -/
def litPart (args : Dict) : Dict :=
  if getv args "dataset" = .vStr "litbank"
  then [("cross_val_split", getv args "cross_val_split")] else []

/-- The changed_opts map.  The three insertion phases of the source use
pairwise disjoint keys, so sequential OrderedDict insertion is
concatenation. -/
def changedOpts (fs : FS) (args : Dict) : Dict :=
  impPart args ++ singletonPart fs args ++ litPart args

/-- The opt_dict map: the entries of vars(args), in their original order,
whose key occurs in changed_opts (values re-read from the namespace). -/
def optDict (fs : FS) (args : Dict) : Dict :=
  args.filter (fun kv => (lookup (changedOpts fs args) kv.1).isSome)

/-- Python string comparison (code-point lexicographic, at most) on character
lists, as used by sorted. -/
def charListLe : List Char → List Char → Bool
  | [], _ => true
  | _ :: _, [] => false
  | a :: as, b :: bs =>
    if a.toNat < b.toNat then true
    else if b.toNat < a.toNat then false
    else charListLe as bs

/-- Key order on dict items, the order sorted(opt_dict.items()) uses: every
dict sorted by the script has pairwise-distinct keys, so the tuple comparison
never reaches the values. -/
def keyLe (a b : String × Value) : Prop := charListLe a.1.data b.1.data = true

instance : DecidableRel keyLe := fun a b =>
  inferInstanceAs (Decidable (charListLe a.1.data b.1.data = true))

/-- Python sorted(d.items()) for key-distinct dicts. -/
def sortPairs (d : Dict) : Dict := List.insertionSort keyLe d

/-- The model name built from a dataset identifier and opt_dict: the literal
longformer tag, the dataset, and the sorted key_value pairs joined with
underscores. -/
def modelNameOf (ds : String) (od : Dict) : String :=
  "longformer_" ++ ds ++ "_" ++
    String.intercalate "_" ((sortPairs od).map (fun kv => kv.1 ++ "_" ++ kv.2.render))

/-- The run name of a configuration (f-string str of the dataset attribute,
then the sorted changed-option representation). -/
def modelName (fs : FS) (args : Dict) : String :=
  modelNameOf (getv args "dataset").render (optDict fs args)

/-- The config record text: one line per opt_dict entry, in insertion order,
rendered as key, colon, space, value (the write loop of the source). -/
def configContent (od : Dict) : String :=
  String.join (od.map (fun kv => kv.1 ++ ": " ++ kv.2.render ++ "\n"))

/-- The Config Recorder: open run_dir/config in mode w and write the record. -/
def recordConfig (fs : FS) (runDir : String) (od : Dict) : FS :=
  writeFile fs (pathJoin runDir "config") (configContent od)

/-- The Run Bootstrapper (the model-directory block of the source): without an
override, join the base root with the run name and create the run directory
and its best_models child when missing; with an override, use it untouched and
fall back from best_models to the override itself when the child is absent. -/
def bootstrap (fs : FS) (baseModelDir runName : String) (modelDirOpt : Option String) :
    Except String (String × String × FS) :=
  match modelDirOpt with
  | none =>
    match (if fsExists fs (pathJoin baseModelDir runName) then Except.ok fs
           else makedirs fs (pathJoin baseModelDir runName)) with
    | .error e => .error e
    | .ok fs1 =>
      match (if fsExists fs1 (pathJoin (pathJoin baseModelDir runName) "best_models")
             then Except.ok fs1
             else makedirs fs1 (pathJoin (pathJoin baseModelDir runName) "best_models")) with
      | .error e => .error e
      | .ok fs2 =>
        .ok (pathJoin baseModelDir runName,
             pathJoin (pathJoin baseModelDir runName) "best_models", fs2)
  | some d =>
    .ok (d,
         (if fsExists fs (pathJoin d "best_models") then pathJoin d "best_models" else d),
         fs)

/-- The Path Resolver (the data-directory block of the source).  The split is
passed already rendered, as the f-strings render it with str.  Returns the
data directory (absent when the source leaves args.data_dir at None) and the
conll reference directory (absent when the source sets it to None). -/
def resolveDataPaths (ds baseDataDir : String) (dataDirOpt : Option String)
    (splitStr : String) : Option String × Option String :=
  match dataDirOpt with
  | none =>
    if ds = "litbank" then
      (some (pathJoin baseDataDir (ds ++ "/independent/" ++ splitStr)),
       some (pathJoin baseDataDir (ds ++ "/conll/" ++ splitStr)))
    else if ds = "ontonotes" then
      (some (pathJoin baseDataDir (ds ++ "/independent")),
       some (pathJoin baseDataDir (ds ++ "/conll")))
    else (none, none)
  | some d =>
    let baseDir := dirname (rstripSlash d)
    if ds = "litbank" then
      (some (pathJoin d splitStr), some (pathJoin baseDir ("conll/" ++ splitStr)))
    else if ds = "ontonotes" then
      (some d, some (pathJoin baseDir "conll"))
    else (some d, none)

/-- The argparse choices check on -dataset: parsing fails before main runs
when the identifier is outside the closed set. -/
def parseDataset (args : Dict) : Except String String :=
  match getv args "dataset" with
  | .vStr ds =>
    if ds ∈ datasetChoices then .ok ds
    else .error "ConfigError: invalid choice for dataset"
  | _ => .error "ConfigError: invalid choice for dataset"

/-- Everything main resolves before handing off to the experiment. -/
structure ResolveResult where
  optDict : Dict
  modelName : String
  modelDir : String
  bestModelDir : String
  dataDir : Option String
  conllDataDir : Option String
  logDir : String
  configContent : String
  fs : FS
deriving DecidableEq

/-- An optional string-typed attribute: the directory override arguments are
either a string or the default None. -/
def strOpt (v : Value) : Option String :=
  match v with
  | .vStr s => some s
  | _ => none

/-- The logs-directory block of main: create run_dir/logs with missing
parents when it does not already exist. -/
def logsStep (modelDir : String) (fs1 : FS) : Except String FS :=
  if fsExists fs1 (pathJoin modelDir "logs") then Except.ok fs1
  else makedirs fs1 (pathJoin modelDir "logs")

/-- The resolution pipeline of main, in source order: dataset validation (at
argument-parsing time), changed_opts and opt_dict, the run name, the model
directory block, the data directory block, the logs directory (created with
missing parents), and the config record.  The eval_model line only adds an
attribute consumed by the experiment and is omitted.  String-typed base
directory arguments are required as in argparse; an ill-typed mapping is
rejected. -/
def mainResolve (fs0 : FS) (args : Dict) : Except String ResolveResult :=
  match parseDataset args with
  | .error e => .error e
  | .ok ds =>
    match getv args "base_data_dir", getv args "base_model_dir" with
    | .vStr baseData, .vStr baseModel =>
      match bootstrap fs0 baseModel
          (modelNameOf (getv args "dataset").render (optDict fs0 args))
          (strOpt (getv args "model_dir")) with
      | .error e => .error e
      | .ok (modelDir, bestDir, fs1) =>
        match logsStep modelDir fs1 with
        | .error e => .error e
        | .ok fs2 =>
          .ok { optDict := optDict fs0 args,
                modelName := modelNameOf (getv args "dataset").render (optDict fs0 args),
                modelDir := modelDir,
                bestModelDir := bestDir,
                dataDir := (resolveDataPaths ds baseData (strOpt (getv args "data_dir"))
                  (getv args "cross_val_split").render).1,
                conllDataDir := (resolveDataPaths ds baseData (strOpt (getv args "data_dir"))
                  (getv args "cross_val_split").render).2,
                logDir := pathJoin modelDir "logs",
                configContent := configContent (optDict fs0 args),
                fs := writeFile fs2 (pathJoin modelDir "config")
                  (configContent (optDict fs0 args)) }
    | _, _ => .error "TypeError"

/-- Test that a path is nonempty and does not end in a slash: the normal form
in which a directory override is handed to the script. -/
def lastNonSlashB (o : String) : Bool :=
  match o.data.reverse.head? with
  | some c => c != '/'
  | none => false

/-- A path whose final character is not a slash (and which is nonempty). -/
def lastNonSlash (o : String) : Prop := lastNonSlashB o = true

instance (o : String) : Decidable (lastNonSlash o) :=
  inferInstanceAs (Decidable (lastNonSlashB o = true))

/-- A configuration differing from the defaults only in the dataset, set to
litbank. -/
def cfgLit0 : Dict := setv defaults "dataset" (.vStr "litbank")

/-- The litbank configuration with cross-validation split 1. -/
def cfgLit1 : Dict := setv cfgLit0 "cross_val_split" (.vInt 1)

/-- A default configuration with a singleton-mentions file supplied. -/
def cfgSingleton : Dict := setv defaults "singleton_file" (.vStr "/tmp/singletons.txt")

/-- A filesystem on which the supplied singleton-mentions file exists. -/
def fsSingleton : FS := ⟨[], [("/tmp/singletons.txt", "")]⟩

/-- A default configuration with an out-of-set dataset identifier. -/
def cfgBadDataset : Dict := setv defaults "dataset" (.vStr "not_a_dataset")

/-- A default configuration with an explicit model-directory override. -/
def cfgOverride : Dict := setv defaults "model_dir" (.vStr "/models/prev_run")

/-! ### Generic mapping lemmas -/

theorem lookup_cons (a : String × Value) (l : Dict) (k : String) :
    lookup (a :: l) k = if a.1 = k then some a.2 else lookup l k := by
  by_cases h : a.1 = k
  · simp [lookup, List.find?_cons, h]
  · simp [lookup, List.find?_cons, h]

theorem lookup_append (l1 l2 : Dict) (k : String) :
    lookup (l1 ++ l2) k = (lookup l1 k).or (lookup l2 k) := by
  unfold lookup
  rw [List.find?_append]
  cases List.find? (fun kv => kv.1 == k) l1 <;> simp

theorem lookup_isSome_iff (l : Dict) (k : String) :
    (lookup l k).isSome = true ↔ k ∈ keys l := by
  induction l with
  | nil => simp [lookup, keys]
  | cons a t ih =>
    rw [lookup_cons]
    have hk : keys (a :: t) = a.1 :: keys t := rfl
    by_cases h : a.1 = k
    · rw [if_pos h, hk]
      simp [h]
    · rw [if_neg h, hk, ih]
      simp only [List.mem_cons]
      constructor
      · exact Or.inr
      · rintro (h3 | h3)
        · exact absurd h3.symm h
        · exact h3

theorem lookup_eq_none (l : Dict) (k : String) (h : k ∉ keys l) : lookup l k = none := by
  cases hl : lookup l k with
  | none => rfl
  | some v => exact absurd ((lookup_isSome_iff l k).mp (by simp [hl])) h

theorem lookup_eq_some_getv (l : Dict) (k : String) (h : k ∈ keys l) :
    lookup l k = some (getv l k) := by
  cases hl : lookup l k with
  | some v => simp [getv, hl]
  | none =>
    have := (lookup_isSome_iff l k).mpr h
    rw [hl] at this
    simp at this

theorem mem_of_lookup_eq_some {l : Dict} {k : String} {v : Value}
    (h : lookup l k = some v) : (k, v) ∈ l := by
  induction l with
  | nil => simp [lookup] at h
  | cons a t ih =>
    rw [lookup_cons] at h
    by_cases ha : a.1 = k
    · rw [if_pos ha] at h
      have hv : a.2 = v := by injection h
      have : a = (k, v) := by
        cases a
        simp only at ha hv
        rw [ha, hv]
      rw [← this]
      exact List.mem_cons_self _ _
    · rw [if_neg ha] at h
      exact List.mem_cons_of_mem _ (ih h)

theorem lookup_eq_some_of_mem {l : Dict} (hn : (keys l).Nodup) {k : String} {v : Value}
    (h : (k, v) ∈ l) : lookup l k = some v := by
  induction l with
  | nil => simp at h
  | cons a t ih =>
    simp only [keys, List.map_cons, List.nodup_cons] at hn
    rw [lookup_cons]
    rcases List.mem_cons.mp h with h1 | h1
    · rw [← h1]
      simp
    · have hkt : k ∈ keys t := by
        have := List.mem_map_of_mem Prod.fst h1
        simpa [keys] using this
      have ha : a.1 ≠ k := fun hk => hn.1 (hk ▸ hkt)
      rw [if_neg ha]
      exact ih hn.2 h1

theorem lookup_filter_key (p : String → Bool) (l : Dict) (k : String) :
    lookup (l.filter (fun kv => p kv.1)) k = if p k then lookup l k else none := by
  induction l with
  | nil => cases hp : p k <;> simp [lookup, hp]
  | cons a t ih =>
    rw [List.filter_cons]
    by_cases hak : a.1 = k
    · subst hak
      cases hpa : p a.1
      · rw [if_neg (by simp [hpa]), ih, hpa]
        simp
      · rw [if_pos (by simp [hpa]), lookup_cons, if_pos rfl]
        simp [lookup_cons, hpa]
    · cases hpa : p a.1
      · rw [if_neg (by simp [hpa]), ih, lookup_cons, if_neg hak]
      · rw [if_pos (by simp [hpa]), lookup_cons, if_neg hak, ih, lookup_cons, if_neg hak]

theorem keys_setv (d : Dict) (k : String) (v : Value) : keys (setv d k v) = keys d := by
  unfold keys setv
  rw [List.map_map]
  apply List.map_congr_left
  intro a _
  by_cases h : a.1 = k <;> simp [Function.comp, h]

/-! ### The code-point order used by sorted -/

theorem charListLe_total : ∀ x y : List Char, charListLe x y = true ∨ charListLe y x = true
  | [], _ => Or.inl rfl
  | _ :: _, [] => Or.inr rfl
  | a :: as, b :: bs => by
    unfold charListLe
    rcases Nat.lt_trichotomy a.toNat b.toNat with h | h | h
    · left
      rw [if_pos h]
    · have h1 : ¬ a.toNat < b.toNat := by omega
      have h2 : ¬ b.toNat < a.toNat := by omega
      rw [if_neg h1, if_neg h2, if_neg h2, if_neg h1]
      exact charListLe_total as bs
    · right
      rw [if_pos h]

theorem charListLe_trans : ∀ x y z : List Char,
    charListLe x y = true → charListLe y z = true → charListLe x z = true
  | [], _, _, _, _ => rfl
  | _ :: _, [], _, h, _ => by simp [charListLe] at h
  | _ :: _, _ :: _, [], _, h => by simp [charListLe] at h
  | a :: as, b :: bs, c :: cs, h1, h2 => by
    unfold charListLe at h1 h2 ⊢
    by_cases hab : a.toNat < b.toNat
    · by_cases hbc : b.toNat < c.toNat
      · rw [if_pos (by omega)]
      · rw [if_neg hbc] at h2
        by_cases hcb : c.toNat < b.toNat
        · rw [if_pos hcb] at h2
          simp at h2
        · rw [if_pos (by omega)]
    · rw [if_neg hab] at h1
      by_cases hba : b.toNat < a.toNat
      · rw [if_pos hba] at h1
        simp at h1
      · rw [if_neg hba] at h1
        by_cases hbc : b.toNat < c.toNat
        · rw [if_pos (by omega)]
        · rw [if_neg hbc] at h2
          by_cases hcb : c.toNat < b.toNat
          · rw [if_pos hcb] at h2
            simp at h2
          · rw [if_neg hcb] at h2
            rw [if_neg (by omega), if_neg (by omega)]
            exact charListLe_trans as bs cs h1 h2

theorem charListLe_antisymm : ∀ x y : List Char,
    charListLe x y = true → charListLe y x = true → x = y
  | [], [], _, _ => rfl
  | [], _ :: _, _, h => by simp [charListLe] at h
  | _ :: _, [], h, _ => by simp [charListLe] at h
  | a :: as, b :: bs, h1, h2 => by
    unfold charListLe at h1 h2
    by_cases hab : a.toNat < b.toNat
    · rw [if_neg (by omega), if_pos hab] at h2
      simp at h2
    · by_cases hba : b.toNat < a.toNat
      · rw [if_neg hab, if_pos hba] at h1
        simp at h1
      · rw [if_neg hab, if_neg hba] at h1
        rw [if_neg hba, if_neg hab] at h2
        have heq : a = b := by
          have hn : a.toNat = b.toNat := by omega
          exact Char.ext (UInt32.eq_of_val_eq (Fin.eq_of_val_eq hn))
        rw [heq, charListLe_antisymm as bs h1 h2]

theorem keyLe_total (a b : String × Value) : keyLe a b ∨ keyLe b a :=
  charListLe_total _ _

theorem keyLe_trans {a b c : String × Value} : keyLe a b → keyLe b c → keyLe a c :=
  charListLe_trans _ _ _

theorem keyLe_antisymm_keys {a b : String × Value} (h1 : keyLe a b) (h2 : keyLe b a) :
    a.1 = b.1 := by
  have := charListLe_antisymm _ _ h1 h2
  exact String.ext this

/-! ### The changed-option map -/

theorem keys_impPart_subset {args : Dict} {k : String} (h : k ∈ keys (impPart args)) :
    k ∈ impOpts := by
  simp only [keys, impPart, List.mem_map] at h
  obtain ⟨kv, hkv, rfl⟩ := h
  obtain ⟨attr, hattr, hf⟩ := List.mem_filterMap.mp hkv
  by_cases hc : getv args attr ≠ getv defaults attr
  · rw [if_pos hc] at hf
    injection hf with hf
    rw [← hf]
    exact hattr
  · rw [if_neg hc] at hf
    cases hf

theorem lookup_singletonPart (fs : FS) (args : Dict) (k : String) (h : k ≠ "singleton") :
    lookup (singletonPart fs args) k = none := by
  unfold singletonPart
  cases getv args "singleton_file" with
  | vStr s =>
    show lookup (if fsExists fs s = true
      then [("singleton", Value.vStr (basename s))] else []) k = none
    by_cases he : fsExists fs s = true
    · rw [if_pos he, lookup_cons, if_neg (fun hk => h hk.symm)]
      rfl
    · rw [if_neg he]
      rfl
  | vInt n => rfl
  | vBool b => rfl
  | vNone => rfl
  | vFloat f => rfl

theorem lookup_litPart_cvs (args : Dict) :
    lookup (litPart args) "cross_val_split" =
      if getv args "dataset" = .vStr "litbank"
      then some (getv args "cross_val_split") else none := by
  unfold litPart
  by_cases h : getv args "dataset" = Value.vStr "litbank"
  · rw [if_pos h, if_pos h, lookup_cons, if_pos rfl]
  · rw [if_neg h, if_neg h]
    rfl

theorem lookup_litPart_ne (args : Dict) (k : String) (h : k ≠ "cross_val_split") :
    lookup (litPart args) k = none := by
  unfold litPart
  by_cases hd : getv args "dataset" = Value.vStr "litbank"
  · rw [if_pos hd, lookup_cons, if_neg (fun hk => h hk.symm)]
    rfl
  · rw [if_neg hd]
    rfl

theorem lookup_changedOpts_cvs (fs : FS) (args : Dict) :
    lookup (changedOpts fs args) "cross_val_split" =
      if getv args "dataset" = .vStr "litbank"
      then some (getv args "cross_val_split") else none := by
  unfold changedOpts
  rw [lookup_append, lookup_append]
  have h1 : lookup (impPart args) "cross_val_split" = none :=
    lookup_eq_none _ _ (fun hm => absurd (keys_impPart_subset hm) (by decide))
  rw [h1, lookup_singletonPart fs args _ (by decide), lookup_litPart_cvs]
  simp

theorem lookup_optDict (fs : FS) (args : Dict) (k : String) :
    lookup (optDict fs args) k =
      if (lookup (changedOpts fs args) k).isSome then lookup args k else none :=
  lookup_filter_key (fun s => (lookup (changedOpts fs args) s).isSome) args k

/-! ### Claim theorems, part one -/

/-- Claim C1 (code bug): with a singleton-mentions file supplied and existing
on disk, changed_opts gains the key singleton with the file basename as
value, but the re-filtering loop over vars(args) drops it (no argparse
attribute is named singleton), so neither the run name nor the persisted
config record ever sees it, contradicting the documented intent of including
the marker in the identity. -/
theorem c1_singleton_dropped :
    lookup (changedOpts fsSingleton cfgSingleton) "singleton"
        = some (Value.vStr "singletons.txt")
      ∧ lookup (optDict fsSingleton cfgSingleton) "singleton" = none
      ∧ modelName fsSingleton cfgSingleton = "longformer_ontonotes_"
      ∧ ((mainResolve fsSingleton cfgSingleton).toOption.map
          (fun r => (r.modelName, r.configContent)))
          = some ("longformer_ontonotes_", "") := by
  refine ⟨by decide, by decide, by decide, by decide⟩

theorem readFile_writeFile (fs : FS) (p c : String) :
    readFile (writeFile fs p c) p = some c := by
  simp [readFile, writeFile, List.find?_cons]

/-- Claim C2 counterexample: recording the map whose insertion order is seed
then dropout_rate writes the lines in that insertion order, not sorted by key
as the claim states. -/
theorem c2_counterexample :
    readFile (recordConfig fsEmpty "/models/run"
        [("seed", Value.vInt 7), ("dropout_rate", Value.vFloat "0.3")])
        (pathJoin "/models/run" "config")
        = some "seed: 7\ndropout_rate: 0.3\n"
      ∧ some "seed: 7\ndropout_rate: 0.3\n" ≠ some "dropout_rate: 0.3\nseed: 7\n" := by
  refine ⟨by decide, by decide⟩

/-- Claim C2 as amended: the recorder writes exactly one line per entry of
the form key colon space value, in the insertion order of the map (for maps
the pipeline builds, the argparse declaration order), to the fixed file
config inside the run directory, replacing any prior content; recording an
empty map leaves zero content lines. -/
theorem c2_record (fs : FS) (runDir : String) (od : Dict) :
    readFile (recordConfig fs runDir od) (pathJoin runDir "config")
        = some (String.join (od.map (fun kv => kv.1 ++ ": " ++ kv.2.render ++ "\n")))
      ∧ readFile (recordConfig (recordConfig fs runDir od) runDir [])
          (pathJoin runDir "config") = some "" := by
  exact ⟨readFile_writeFile _ _ _, readFile_writeFile _ _ _⟩

/-- Claim C4: a dataset identifier outside the closed choice set is rejected
at parse time with the configuration error, before any data or reference
directory is produced. -/
theorem c4_unknown_dataset (fs : FS) (args : Dict) (ds : String)
    (hds : getv args "dataset" = Value.vStr ds) (h : ds ∉ datasetChoices) :
    mainResolve fs args = .error "ConfigError: invalid choice for dataset" := by
  simp [mainResolve, parseDataset, hds, h]

/-- Witness for C4 at the concrete identifier outside the closed set. -/
theorem c4_witness :
    mainResolve fsEmpty cfgBadDataset = .error "ConfigError: invalid choice for dataset" :=
  c4_unknown_dataset fsEmpty cfgBadDataset "not_a_dataset" (by decide) (by decide)

/-- Claim C5 counterexample: with no data-directory override, a dataset other
than litbank or ontonotes (here quizbowl) leaves the data directory unset;
it is not the base root taken verbatim. -/
theorem c5_counterexample :
    (resolveDataPaths "quizbowl" "/data" none "0").1 = none
      ∧ (resolveDataPaths "quizbowl" "/data" none "0").1 ≠ some "/data" := by
  refine ⟨rfl, by decide⟩

/-- Claim C5 as amended: without an override, ontonotes and litbank get their
independent and conll directories under the base root (with the rendered
split as a final component for litbank), while every other dataset of the
closed set leaves the data directory unset (the base root is not used) and
has no reference directory. -/
theorem c5_no_override_paths (base split : String) :
    resolveDataPaths "ontonotes" base none split
        = (some (pathJoin base "ontonotes/independent"),
           some (pathJoin base "ontonotes/conll"))
      ∧ resolveDataPaths "litbank" base none split
        = (some (pathJoin base ("litbank/independent/" ++ split)),
           some (pathJoin base ("litbank/conll/" ++ split)))
      ∧ resolveDataPaths "preco" base none split = (none, none)
      ∧ resolveDataPaths "quizbowl" base none split = (none, none)
      ∧ resolveDataPaths "wikicoref" base none split = (none, none) := by
  refine ⟨rfl, rfl, rfl, rfl, rfl⟩

/-- Claim C6: with an explicit data-directory override, litbank appends the
rendered split as a direct child and derives the reference directory from the
parent of the override plus conll and the split; ontonotes keeps the override
verbatim with the parent plus conll as reference; every other dataset keeps
the override verbatim with no reference directory. -/
theorem c6_override_paths (base o split : String) :
    resolveDataPaths "litbank" base (some o) split
        = (some (pathJoin o split),
           some (pathJoin (dirname (rstripSlash o)) ("conll/" ++ split)))
      ∧ resolveDataPaths "ontonotes" base (some o) split
        = (some o, some (pathJoin (dirname (rstripSlash o)) "conll"))
      ∧ resolveDataPaths "preco" base (some o) split = (some o, none)
      ∧ resolveDataPaths "quizbowl" base (some o) split = (some o, none)
      ∧ resolveDataPaths "wikicoref" base (some o) split = (some o, none) := by
  refine ⟨rfl, rfl, rfl, rfl, rfl⟩

/-- Claim C7: cross_val_split is present in the changed-option map, and hence
in opt_dict, precisely when the dataset is litbank, and its value is read
straight from the configuration with no comparison against the default. -/
theorem c7_cross_val_split (fs : FS) (args : Dict) (h : WF args) :
    lookup (changedOpts fs args) "cross_val_split" =
        (if getv args "dataset" = .vStr "litbank"
         then some (getv args "cross_val_split") else none)
      ∧ lookup (optDict fs args) "cross_val_split" =
        (if getv args "dataset" = .vStr "litbank"
         then some (getv args "cross_val_split") else none) := by
  refine ⟨lookup_changedOpts_cvs fs args, ?_⟩
  rw [lookup_optDict, lookup_changedOpts_cvs]
  by_cases hd : getv args "dataset" = Value.vStr "litbank"
  · rw [if_pos hd, if_pos (by simp)]
    exact lookup_eq_some_getv args "cross_val_split"
      (h.mem_iff.mpr (by decide))
  · rw [if_neg hd, if_neg (by simp)]

/-- Witness for C7 at a litbank configuration. -/
theorem c7_witness :
    lookup (optDict fsEmpty cfgLit0) "cross_val_split" = some (Value.vInt 0) := by
  have h := (c7_cross_val_split fsEmpty cfgLit0 (by decide)).2
  rw [h]
  decide

/-! ### Filesystem lemmas for the bootstrapper -/

theorem fsExists_mkdirsFinish_self (p : String) (fs : FS) :
    fsExists (mkdirsFinish p fs) p = true := by
  unfold mkdirsFinish
  by_cases h : fsExists fs p = true
  · rw [if_pos h]
    exact h
  · rw [if_neg h]
    simp [fsExists, List.contains_cons]

theorem fsExists_mkdirsFinish_mono {fs : FS} {q : String} (h : fsExists fs q = true)
    (p : String) : fsExists (mkdirsFinish p fs) q = true := by
  unfold mkdirsFinish
  by_cases hp : fsExists fs p = true
  · rw [if_pos hp]
    exact h
  · rw [if_neg hp]
    simp only [fsExists, List.contains_cons, Bool.or_eq_true] at h ⊢
    rcases h with h1 | h1
    · exact Or.inl (Or.inr h1)
    · exact Or.inr h1

theorem fsExists_mkdirsChain_mono : ∀ (fuel : Nat) (fs : FS) (p q : String),
    fsExists fs q = true → fsExists (mkdirsChain fuel fs p) q = true
  | 0, _, _, _, h => h
  | fuel + 1, fs, p, q, h => by
    unfold mkdirsChain
    apply fsExists_mkdirsFinish_mono
    by_cases hc : mkdirsHead p ≠ "" ∧ mkdirsTail p ≠ "" ∧ fsExists fs (mkdirsHead p) = false
    · rw [if_pos hc]
      exact fsExists_mkdirsChain_mono fuel fs (mkdirsHead p) q h
    · rw [if_neg hc]
      exact h

theorem fsExists_mkdirsChain_self (fuel : Nat) (fs : FS) (p : String) :
    fsExists (mkdirsChain (fuel + 1) fs p) p = true := by
  unfold mkdirsChain
  exact fsExists_mkdirsFinish_self p _

theorem makedirs_of_not_exists {fs : FS} {p : String} (h : fsExists fs p = false) :
    makedirs fs p = .ok (mkdirsChain (p.length + 1) fs p) := by
  unfold makedirs
  rw [if_neg (by simp [h])]

/-! ### Claim theorems, part two -/

theorem bootstrap_none_ok (fs : FS) (b n : String) :
    ∃ fs1, bootstrap fs b n none
        = .ok (pathJoin b n, pathJoin (pathJoin b n) "best_models", fs1)
      ∧ fsExists fs1 (pathJoin b n) = true
      ∧ fsExists fs1 (pathJoin (pathJoin b n) "best_models") = true := by
  by_cases h1 : fsExists fs (pathJoin b n) = true
  · by_cases h2 : fsExists fs (pathJoin (pathJoin b n) "best_models") = true
    · exact ⟨fs, by simp [bootstrap, h1, h2], h1, h2⟩
    · have hmk := @makedirs_of_not_exists fs
        (pathJoin (pathJoin b n) "best_models") (by simpa using h2)
      refine ⟨mkdirsChain ((pathJoin (pathJoin b n) "best_models").length + 1) fs
        (pathJoin (pathJoin b n) "best_models"), ?_, ?_, ?_⟩
      · simp [bootstrap, h1, h2, hmk]
      · exact fsExists_mkdirsChain_mono _ _ _ _ h1
      · exact fsExists_mkdirsChain_self _ _ _
  · have hmk1 := @makedirs_of_not_exists fs (pathJoin b n) (by simpa using h1)
    have hAM : fsExists (mkdirsChain ((pathJoin b n).length + 1) fs (pathJoin b n))
        (pathJoin b n) = true := fsExists_mkdirsChain_self _ _ _
    by_cases h2 : fsExists (mkdirsChain ((pathJoin b n).length + 1) fs (pathJoin b n))
        (pathJoin (pathJoin b n) "best_models") = true
    · exact ⟨_, by simp [bootstrap, h1, h2, hmk1], hAM, h2⟩
    · have hmk2 := @makedirs_of_not_exists
        (mkdirsChain ((pathJoin b n).length + 1) fs (pathJoin b n))
        (pathJoin (pathJoin b n) "best_models") (by simpa using h2)
      refine ⟨mkdirsChain ((pathJoin (pathJoin b n) "best_models").length + 1)
        (mkdirsChain ((pathJoin b n).length + 1) fs (pathJoin b n))
        (pathJoin (pathJoin b n) "best_models"), ?_, ?_, ?_⟩
      · simp [bootstrap, h1, h2, hmk1, hmk2]
      · exact fsExists_mkdirsChain_mono _ _ _ _ hAM
      · exact fsExists_mkdirsChain_self _ _ _

/-- Claim C8: bootstrapping twice with the same base model root, run name,
and override argument yields the same run-directory and best-artifacts paths
both times, and the second call succeeds without raising, leaving the
filesystem unchanged: directory creation is guarded by existence checks, and
the parent-creating makedirs is used for missing targets. -/
theorem c8_bootstrap_idempotent (fs : FS) (b n : String) (ov : Option String) :
    ∃ runDir bestDir fs1,
      bootstrap fs b n ov = .ok (runDir, bestDir, fs1)
        ∧ bootstrap fs1 b n ov = .ok (runDir, bestDir, fs1) := by
  cases ov with
  | some d => exact ⟨d, _, fs, rfl, rfl⟩
  | none =>
    obtain ⟨fs1, hb, hM, hB⟩ := bootstrap_none_ok fs b n
    refine ⟨_, _, fs1, hb, ?_⟩
    simp [bootstrap, hM, hB]

/-- Claim C9: with an explicit override the bootstrapper returns it untouched
as the run directory (creating nothing: the filesystem component of the
result is the input state), with best_models under it when that child exists
and the override itself otherwise; without an override the best-artifacts
directory is always best_models under the run directory. -/
theorem c9_override_best_dir (fs : FS) (b n o : String) :
    bootstrap fs b n (some o)
        = .ok (o,
            (if fsExists fs (pathJoin o "best_models") = true
             then pathJoin o "best_models" else o), fs)
      ∧ ∃ fs1, bootstrap fs b n none
        = .ok (pathJoin b n, pathJoin (pathJoin b n) "best_models", fs1) := by
  refine ⟨rfl, ?_⟩
  obtain ⟨fs1, hb, -, -⟩ := bootstrap_none_ok fs b n
  exact ⟨fs1, hb⟩

/-! ### Path structure lemmas for the logs directory -/

theorem lastNonSlash_elim {o : String} (ho : lastNonSlash o) :
    ∃ c t, o.data.reverse = c :: t ∧ c ≠ '/' := by
  unfold lastNonSlash lastNonSlashB at ho
  cases hr : o.data.reverse with
  | nil =>
    rw [hr] at ho
    exact absurd ho (by simp)
  | cons a t =>
    rw [hr] at ho
    simp only [List.head?_cons] at ho
    exact ⟨a, t, rfl, by simpa using ho⟩

theorem ne_empty_of_lastNonSlash {o : String} (ho : lastNonSlash o) : o ≠ "" := by
  obtain ⟨c, t, hr, -⟩ := lastNonSlash_elim ho
  intro h
  rw [h] at hr
  cases hr

theorem asString_data (o : String) : o.data.asString = o := by
  cases o
  rfl

theorem pathJoin_logs_data {o : String} (ho : lastNonSlash o) :
    (pathJoin o "logs").data = o.data ++ '/' :: "logs".data := by
  obtain ⟨c, t, hr, hc⟩ := lastNonSlash_elim ho
  have hcond : ¬ (o.data = [] ∨ o.data.getLast? = some '/') := by
    rintro (h1 | h2)
    · rw [h1] at hr
      cases hr
    · have hgl : o.data.getLast? = some c := by
        rw [← List.head?_reverse, hr]
        rfl
      rw [hgl] at h2
      injection h2 with h2
      exact hc h2
  unfold pathJoin pathJoinL
  rw [if_neg (by decide), if_neg hcond]
  rfl

theorem dirname_pathJoin_logs {o : String} (ho : lastNonSlash o) :
    dirname (pathJoin o "logs") = o := by
  obtain ⟨c, t, hr, hc⟩ := lastNonSlash_elim ho
  unfold dirname dirnameL
  rw [pathJoin_logs_data ho]
  have h1 : (o.data ++ '/' :: "logs".data).reverse
      = 's' :: 'g' :: 'o' :: 'l' :: '/' :: o.data.reverse := by
    simp
  rw [h1, hr]
  have h2 : List.dropWhile (fun a => a != '/') ('s' :: 'g' :: 'o' :: 'l' :: '/' :: c :: t)
      = '/' :: c :: t := by
    simp [List.dropWhile_cons]
  rw [h2]
  have h3 : ('/' :: c :: t).reverse = (c :: t).reverse ++ ['/'] := by
    simp
  rw [h3]
  have h4 : ((c :: t).reverse ++ ['/']) ≠ [] := by
    simp
  have h5 : ((c :: t).reverse ++ ['/']).any (fun a => a != '/') = true := by
    apply List.any_eq_true.mpr
    exact ⟨c, by simp, by simpa using hc⟩
  rw [if_pos ⟨h4, h5⟩]
  unfold dropTrailing
  have h6 : ((c :: t).reverse ++ ['/']).reverse = '/' :: c :: t := by
    simp
  rw [h6]
  have h7 : List.dropWhile (fun a => a == '/') ('/' :: c :: t) = c :: t := by
    simp [List.dropWhile_cons, hc]
  rw [h7]
  have h8 : (c :: t).reverse = o.data := by
    rw [← hr]
    simp
  rw [h8]
  exact asString_data o

theorem basename_pathJoin_logs {o : String} (ho : lastNonSlash o) :
    basename (pathJoin o "logs") = "logs" := by
  unfold basename basenameL
  rw [pathJoin_logs_data ho]
  have h1 : (o.data ++ '/' :: "logs".data).reverse
      = 's' :: 'g' :: 'o' :: 'l' :: '/' :: o.data.reverse := by
    simp
  rw [h1]
  have h2 : List.takeWhile (fun a => a != '/')
      ('s' :: 'g' :: 'o' :: 'l' :: '/' :: o.data.reverse) = ['s', 'g', 'o', 'l'] := by
    simp [List.takeWhile_cons]
  rw [h2]
  rfl

theorem mkdirsHead_logs {o : String} (ho : lastNonSlash o) :
    mkdirsHead (pathJoin o "logs") = o := by
  unfold mkdirsHead
  rw [basename_pathJoin_logs ho, if_neg (by decide), dirname_pathJoin_logs ho]

theorem mkdirsTail_logs {o : String} (ho : lastNonSlash o) :
    mkdirsTail (pathJoin o "logs") = "logs" := by
  unfold mkdirsTail
  rw [basename_pathJoin_logs ho, if_neg (show ("logs" : String) ≠ "" by decide)]

theorem pathJoin_logs_length {o : String} (ho : lastNonSlash o) :
    (pathJoin o "logs").length = o.length + 5 := by
  have h := pathJoin_logs_data ho
  show (pathJoin o "logs").data.length = o.data.length + 5
  rw [h]
  simp

theorem mkdirsChain_logs_parent (fs : FS) {o : String} (ho : lastNonSlash o) (k : Nat) :
    fsExists (mkdirsChain (k + 2) fs (pathJoin o "logs")) o = true := by
  show fsExists (mkdirsChain (k + 1 + 1) fs (pathJoin o "logs")) o = true
  unfold mkdirsChain
  apply fsExists_mkdirsFinish_mono
  rw [mkdirsHead_logs ho, mkdirsTail_logs ho]
  by_cases he : fsExists fs o = true
  · rw [if_neg (by simp [he])]
    exact he
  · rw [if_pos ⟨ne_empty_of_lastNonSlash ho, by decide, by simpa using he⟩]
    exact fsExists_mkdirsChain_self k fs o

theorem makedirs_logs_parent (fs : FS) {o : String} (ho : lastNonSlash o) :
    fsExists (mkdirsChain ((pathJoin o "logs").length + 1) fs (pathJoin o "logs")) o
      = true := by
  have h : (pathJoin o "logs").length + 1 = (o.length + 4) + 2 := by
    rw [pathJoin_logs_length ho]
  rw [h]
  exact mkdirsChain_logs_parent fs ho (o.length + 4)

theorem fsExists_writeFile_mono {fs : FS} {q : String} (h : fsExists fs q = true)
    (p c : String) : fsExists (writeFile fs p c) q = true := by
  simp only [fsExists, writeFile, Bool.or_eq_true] at h ⊢
  rcases h with h1 | h1
  · exact Or.inl h1
  · right
    rcases List.any_eq_true.mp h1 with ⟨e, he, hq⟩
    apply List.any_eq_true.mpr
    by_cases hqp : q = p
    · exact ⟨(p, c), List.mem_cons_self _ _, by simp [hqp]⟩
    · refine ⟨e, List.mem_cons_of_mem _ ?_, hq⟩
      apply List.mem_filter.mpr
      refine ⟨he, ?_⟩
      have he1 : e.1 = q := by simpa using hq
      simp [he1, hqp]

theorem logsStep_ok_exists {modelDir : String} {fs1 fs2 : FS}
    (h : logsStep modelDir fs1 = .ok fs2) :
    fsExists fs2 (pathJoin modelDir "logs") = true := by
  unfold logsStep at h
  by_cases he : fsExists fs1 (pathJoin modelDir "logs") = true
  · rw [if_pos he] at h
    injection h with h
    rw [← h]
    exact he
  · rw [if_neg he, makedirs_of_not_exists (by simpa using he)] at h
    injection h with h
    rw [← h]
    exact fsExists_mkdirsChain_self _ _ _

theorem logsStep_parent {o : String} {fs1 fs2 : FS} (ho : lastNonSlash o)
    (hno : fsExists fs1 (pathJoin o "logs") = false)
    (h : logsStep o fs1 = .ok fs2) : fsExists fs2 o = true := by
  unfold logsStep at h
  rw [if_neg (by simp [hno]), makedirs_of_not_exists hno] at h
  injection h with h
  rw [← h]
  exact makedirs_logs_parent fs1 ho

/-- Claim C10: whenever resolution succeeds, the logs directory exists under
the run directory in the final filesystem state; and an explicit
run-directory override in normal form (nonempty, no trailing slash) whose
logs child did not previously exist is itself created as a side effect of the
parent-building logs creation, rather than causing a failure. -/
theorem c10_logs_exist (fs : FS) (args : Dict) (r : ResolveResult) (o : String)
    (h : mainResolve fs args = .ok r) :
    fsExists r.fs (pathJoin r.modelDir "logs") = true
      ∧ (getv args "model_dir" = Value.vStr o → lastNonSlash o →
          fsExists fs (pathJoin o "logs") = false → fsExists r.fs o = true) := by
  unfold mainResolve at h
  split at h
  · simp at h
  · split at h
    · split at h
      · simp at h
      · split at h
        · simp at h
        · injection h with h
          subst h
          rename_i modelDir bestDir fs1 hboot x fs2 hlog
          refine ⟨?_, ?_⟩
          · exact fsExists_writeFile_mono (logsStep_ok_exists hlog) _ _
          · intro hmo hons hno
            rw [hmo] at hboot
            simp [bootstrap, strOpt] at hboot
            obtain ⟨h1, h2, h3⟩ := hboot
            subst h1
            subst h3
            exact fsExists_writeFile_mono (logsStep_parent hons hno hlog) _ _
    · simp at h

/-- Witness for C10: on an empty filesystem with the override
/models/prev_run, resolution succeeds, the logs directory exists afterwards,
and the previously missing override directory was created along the way. -/
theorem c10_witness :
    ∃ r, mainResolve fsEmpty cfgOverride = Except.ok r
      ∧ fsExists r.fs (pathJoin r.modelDir "logs") = true
      ∧ fsExists r.fs "/models/prev_run" = true := by
  cases hr : mainResolve fsEmpty cfgOverride with
  | error e =>
    have hok : (mainResolve fsEmpty cfgOverride).toOption.isSome = true := by decide
    rw [hr] at hok
    simp [Except.toOption] at hok
  | ok r =>
    have h := c10_logs_exist fsEmpty cfgOverride r "/models/prev_run" hr
    exact ⟨r, rfl, h.1, h.2 (by decide) (by decide) (by decide)⟩

/-! ### Determinism of the run name -/

theorem mem_keys_append (l1 l2 : Dict) (k : String) :
    k ∈ keys (l1 ++ l2) ↔ k ∈ keys l1 ∨ k ∈ keys l2 := by
  simp [keys]

theorem keys_singletonPart_subset {fs : FS} {args : Dict} {k : String}
    (h : k ∈ keys (singletonPart fs args)) : k = "singleton" := by
  unfold singletonPart at h
  cases hx : getv args "singleton_file" with
  | vStr s =>
    rw [hx] at h
    by_cases he : fsExists fs s = true
    · simp [keys, he] at h
      exact h
    · simp [keys, he] at h
  | vInt n =>
    rw [hx] at h
    simp [keys] at h
  | vBool b =>
    rw [hx] at h
    simp [keys] at h
  | vNone =>
    rw [hx] at h
    simp [keys] at h
  | vFloat f =>
    rw [hx] at h
    simp [keys] at h

theorem keys_litPart_subset {args : Dict} {k : String} (h : k ∈ keys (litPart args)) :
    k = "cross_val_split" ∧ getv args "dataset" = Value.vStr "litbank" := by
  unfold litPart at h
  by_cases hd : getv args "dataset" = Value.vStr "litbank"
  · rw [if_pos hd] at h
    simp [keys] at h
    exact ⟨h, hd⟩
  · rw [if_neg hd] at h
    simp [keys] at h

/-- Claim C3 counterexample: two litbank configurations agreeing on the
dataset, on every allow-listed option, and on the singleton-file existence
outcome, but with different cross-validation splits, produce different run
names: the unconditionally added cross_val_split extra also feeds the name. -/
theorem c3_counterexample :
    getv cfgLit0 "dataset" = getv cfgLit1 "dataset"
      ∧ (∀ k ∈ impOpts, getv cfgLit0 k = getv cfgLit1 k)
      ∧ singletonPart fsEmpty cfgLit0 = singletonPart fsEmpty cfgLit1
      ∧ modelName fsEmpty cfgLit0 ≠ modelName fsEmpty cfgLit1 := by
  refine ⟨by decide, by decide, by decide, by decide⟩

/-- Claim C3 as amended: for all well-formed configurations with the same
dataset, the same values for every allow-listed option, the same
singleton-file existence outcome, and, when the dataset is litbank, the same
cross-validation split, the derived run name is identical, regardless of the
insertion order of keys in the underlying mappings and of the rest of the
filesystem state (sorting by key is applied before rendering and joining). -/
theorem c3_run_name_deterministic (fs1 fs2 : FS) (a1 a2 : Dict)
    (hw1 : WF a1) (hw2 : WF a2)
    (hds : getv a1 "dataset" = getv a2 "dataset")
    (himp : ∀ k ∈ impOpts, getv a1 k = getv a2 k)
    (hcvs : getv a1 "dataset" = Value.vStr "litbank" →
      getv a1 "cross_val_split" = getv a2 "cross_val_split")
    (hsing : singletonPart fs1 a1 = [] ↔ singletonPart fs2 a2 = []) :
    modelName fs1 a1 = modelName fs2 a2 := by
  have himpd : ∀ x ∈ impOpts, x ∈ keys defaults := by decide
  have himp' : impPart a1 = impPart a2 := by
    unfold impPart
    apply List.filterMap_congr
    intro k hk
    rw [himp k hk]
  have hlit : litPart a1 = litPart a2 := by
    unfold litPart
    rw [hds]
    by_cases hd : getv a2 "dataset" = Value.vStr "litbank"
    · rw [if_pos hd, if_pos hd, hcvs (by rw [hds]; exact hd)]
    · rw [if_neg hd, if_neg hd]
  have hch : ∀ k, k ≠ "singleton" →
      (lookup (changedOpts fs1 a1) k).isSome = (lookup (changedOpts fs2 a2) k).isSome := by
    intro k hk
    unfold changedOpts
    rw [lookup_append, lookup_append, lookup_append, lookup_append,
      lookup_singletonPart fs1 a1 k hk, lookup_singletonPart fs2 a2 k hk, himp', hlit]
  have hnd : (keys defaults).Nodup := by decide
  have hka1 : (keys a1).Nodup := hw1.nodup_iff.mpr hnd
  have hka2 : (keys a2).Nodup := hw2.nodup_iff.mpr hnd
  have hvals : ∀ k, k ∈ keys defaults → getv a1 k = getv a2 k →
      lookup a1 k = lookup a2 k := by
    intro k hkd hgv
    rw [lookup_eq_some_getv a1 k (hw1.mem_iff.mpr hkd),
      lookup_eq_some_getv a2 k (hw2.mem_iff.mpr hkd), hgv]
  have hod : ∀ k, lookup (optDict fs1 a1) k = lookup (optDict fs2 a2) k := by
    intro k
    rw [lookup_optDict, lookup_optDict]
    by_cases hk : k = "singleton"
    · subst hk
      have h1 : lookup a1 "singleton" = none :=
        lookup_eq_none _ _ (fun hm => absurd (hw1.mem_iff.mp hm) (by decide))
      have h2 : lookup a2 "singleton" = none :=
        lookup_eq_none _ _ (fun hm => absurd (hw2.mem_iff.mp hm) (by decide))
      rw [h1, h2]
      simp
    · rw [hch k hk]
      by_cases hc : (lookup (changedOpts fs2 a2) k).isSome = true
      · rw [if_pos hc, if_pos hc]
        have hmem := (lookup_isSome_iff _ k).mp hc
        unfold changedOpts at hmem
        rcases (mem_keys_append _ _ k).mp hmem with hm12 | hm3
        · rcases (mem_keys_append _ _ k).mp hm12 with hm1 | hm2
          · exact hvals k (himpd k (keys_impPart_subset hm1))
              (himp k (keys_impPart_subset hm1))
          · exact absurd (keys_singletonPart_subset hm2) hk
        · obtain ⟨hkc, hd2⟩ := keys_litPart_subset hm3
          subst hkc
          exact hvals _ (by decide) (hcvs (by rw [hds]; exact hd2))
      · rw [if_neg hc, if_neg hc]
  have hnod1 : (keys (optDict fs1 a1)).Nodup :=
    ((List.filter_sublist a1).map Prod.fst).nodup hka1
  have hnod2 : (keys (optDict fs2 a2)).Nodup :=
    ((List.filter_sublist a2).map Prod.fst).nodup hka2
  have hp1 : (optDict fs1 a1).Nodup := List.Nodup.of_map Prod.fst hnod1
  have hp2 : (optDict fs2 a2).Nodup := List.Nodup.of_map Prod.fst hnod2
  have hmemiff : ∀ x : String × Value, x ∈ optDict fs1 a1 ↔ x ∈ optDict fs2 a2 := by
    rintro ⟨k, v⟩
    constructor
    · intro hx
      exact mem_of_lookup_eq_some ((hod k).symm.trans (lookup_eq_some_of_mem hnod1 hx))
    · intro hx
      exact mem_of_lookup_eq_some ((hod k).trans (lookup_eq_some_of_mem hnod2 hx))
  have hperm : List.Perm (optDict fs1 a1) (optDict fs2 a2) :=
    List.perm_of_nodup_nodup_toFinset_eq hp1 hp2
      (Finset.ext (fun x => by
        rw [List.mem_toFinset, List.mem_toFinset]
        exact hmemiff x))
  have hsorted : sortPairs (optDict fs1 a1) = sortPairs (optDict fs2 a2) := by
    have hps : List.Perm (sortPairs (optDict fs1 a1)) (sortPairs (optDict fs2 a2)) :=
      ((List.perm_insertionSort keyLe _).trans hperm).trans
        (List.perm_insertionSort keyLe _).symm
    haveI : IsTotal (String × Value) keyLe := ⟨keyLe_total⟩
    haveI : IsTrans (String × Value) keyLe := ⟨fun _ _ _ => keyLe_trans⟩
    have hs1 : List.Sorted keyLe (sortPairs (optDict fs1 a1)) :=
      List.sorted_insertionSort keyLe _
    have hs2 : List.Sorted keyLe (sortPairs (optDict fs2 a2)) :=
      List.sorted_insertionSort keyLe _
    have hn1 : (List.map Prod.fst (sortPairs (optDict fs1 a1))).Nodup :=
      (((List.perm_insertionSort keyLe (optDict fs1 a1)).map Prod.fst).nodup_iff).mpr hnod1
    have hn2 : (List.map Prod.fst (sortPairs (optDict fs2 a2))).Nodup :=
      (((List.perm_insertionSort keyLe (optDict fs2 a2)).map Prod.fst).nodup_iff).mpr hnod2
    have hst1 : List.Sorted (fun a b : String × Value => keyLe a b ∧ a.1 ≠ b.1)
        (sortPairs (optDict fs1 a1)) :=
      hs1.and (List.pairwise_map.mp hn1)
    have hst2 : List.Sorted (fun a b : String × Value => keyLe a b ∧ a.1 ≠ b.1)
        (sortPairs (optDict fs2 a2)) :=
      hs2.and (List.pairwise_map.mp hn2)
    haveI : IsAntisymm (String × Value) (fun a b => keyLe a b ∧ a.1 ≠ b.1) :=
      ⟨fun a b h1 h2 => absurd (keyLe_antisymm_keys h1.1 h2.1) h1.2⟩
    exact List.eq_of_perm_of_sorted hps hst1 hst2
  unfold modelName modelNameOf
  rw [hds, hsorted]

/-- Witness for C3 as amended: the run name of the litbank default
configuration does not change when the argument mapping is reversed. -/
theorem c3_witness :
    modelName fsEmpty cfgLit0 = modelName fsEmpty cfgLit0.reverse :=
  c3_run_name_deterministic fsEmpty fsEmpty cfgLit0 cfgLit0.reverse
    (by decide) (by decide) (by decide) (by decide) (by decide) (by decide)

end Coref
